import Mathlib

/-!
Verification development for the cdk-go blog API.

The system under study is a CRUD blog API: a routing dispatcher maps
(method, path, body) requests to a storage repository that keeps one JSON
object per post at the key posts/<id>.json in an S3 bucket.  This file
gives a shallow embedding of the data model (model.Post, model.PostRequest),
the S3-backed repository (internal/repository/s3.go), the refactored
service and handler layers (docs/guides/refactoring/02-code-quality.md),
and the minimal CRUD Lambda (the second program of src/unnamed/part_007,
documented in docs/reference/crud-lambda.md).

Storage is modelled as an association list from keys to byte strings, and
S3 I/O faults are modelled by explicit boolean fault parameters (a fault
makes the corresponding storage call fail; the nominal execution passes
false everywhere).  JSON marshalling of the Go standard library is
modelled by an executable encoder and a matching parser for the flat
objects this system reads and writes.
-/

namespace CdkGo

/-! ### Kernel-reducible string helpers (models of the Go strings package) -/

/-- Left brace character, written via its code point. -/
def lbrace : Char := Char.ofNat 123

/-- Right brace character, written via its code point. -/
def rbrace : Char := Char.ofNat 125

/-- Boolean list-prefix test, structurally recursive. -/
def listIsPref : List Char → List Char → Bool
  | [], _ => true
  | x :: xs, y :: ys => x == y && listIsPref xs ys
  | _ :: _, [] => false

/-- Models strings.HasPrefix from the Go standard library. -/
def strHasPref (s pfx : String) : Bool := listIsPref pfx.data s.data

/-- Remainder of the second list after removing the first as a prefix, when possible. -/
def stripPref : List Char → List Char → Option (List Char)
  | [], l => some l
  | _ :: _, [] => none
  | a :: as, b :: bs => if a == b then stripPref as bs else none

/-- Models strings.TrimPrefix: drops the prefix when present, otherwise returns the input. -/
def goTrimPref (s pfx : String) : String :=
  match stripPref pfx.data s.data with
  | some r => String.mk r
  | none => s

/-- Auxiliary scanner for substring search. -/
def containsAux (sub : List Char) : List Char → Bool
  | [] => listIsPref sub []
  | c :: rest => listIsPref sub (c :: rest) || containsAux sub rest

/-- Models strings.Contains: substring test. -/
def goContains (s sub : String) : Bool := containsAux sub.data s.data

/-- ASCII whitespace test (the Go code trims Unicode space; the inputs used
here are ASCII, so the ASCII model is faithful for them). -/
def isSpaceChar (c : Char) : Bool := c == ' ' || c == '\t' || c == '\n' || c == '\r'

/-- Models strings.TrimSpace on ASCII whitespace. -/
def goTrimSpace (s : String) : String :=
  String.mk (((s.data.dropWhile isSpaceChar).reverse.dropWhile isSpaceChar).reverse)

/-- Models strings.HasSuffix. -/
def strEndsWith (s suff : String) : Bool := listIsPref suff.data.reverse s.data.reverse

/-! ### JSON string escaping (model of Go encoding/json string encoding) -/

/-- Lowercase hexadecimal digit for a value below 16. -/
def hexDigitChar (n : Nat) : Char :=
  if n < 10 then Char.ofNat (48 + n) else Char.ofNat (87 + n)

/-- Escaping of one character as performed by the Go JSON encoder with its
default HTML escaping: quote, backslash, newline, carriage return and tab
get two-character escapes, other control characters and the HTML-relevant
characters get a six-character unicode escape, everything else is emitted
verbatim. -/
def escapeChar (c : Char) : List Char :=
  if c == '"' then ['\\', '"']
  else if c == '\\' then ['\\', '\\']
  else if c == '\n' then ['\\', 'n']
  else if c == '\r' then ['\\', 'r']
  else if c == '\t' then ['\\', 't']
  else if c == '<' then ['\\', 'u', '0', '0', '3', 'c']
  else if c == '>' then ['\\', 'u', '0', '0', '3', 'e']
  else if c == '&' then ['\\', 'u', '0', '0', '2', '6']
  else if c.toNat < 32 then
    ['\\', 'u', '0', '0', hexDigitChar (c.toNat / 16), hexDigitChar (c.toNat % 16)]
  else if c.toNat == 8232 then ['\\', 'u', '2', '0', '2', '8']
  else if c.toNat == 8233 then ['\\', 'u', '2', '0', '2', '9']
  else [c]

/-- Escape every character of a list. -/
def escapeChars : List Char → List Char
  | [] => []
  | c :: rest => escapeChar c ++ escapeChars rest

/-- JSON string literal for a Lean string: opening quote, escaped body, closing quote. -/
def quoteChars (s : String) : List Char := '"' :: (escapeChars s.data ++ ['"'])

/-- Value of a hexadecimal digit character. -/
def hexVal (c : Char) : Option Nat :=
  if '0' ≤ c ∧ c ≤ '9' then some (c.toNat - 48)
  else if 'a' ≤ c ∧ c ≤ 'f' then some (c.toNat - 87)
  else if 'A' ≤ c ∧ c ≤ 'F' then some (c.toNat - 55)
  else none

/-- Single-character JSON escapes accepted by the decoder. -/
def unescapeChar : Char → Option Char
  | '"' => some '"'
  | '\\' => some '\\'
  | '/' => some '/'
  | 'b' => some (Char.ofNat 8)
  | 'f' => some (Char.ofNat 12)
  | 'n' => some '\n'
  | 'r' => some '\r'
  | 't' => some '\t'
  | _ => none

/-- Character denoted by a four-digit unicode escape; values in the
surrogate range are replaced by the unicode replacement character, as the
Go decoder does for unpaired surrogates. -/
def uChar (n : Nat) : Char :=
  if 55296 ≤ n ∧ n ≤ 57343 then Char.ofNat 65533 else Char.ofNat n

/-- Parser for the body of a JSON string literal, consuming up to and
including the closing quote and returning the decoded characters together
with the unconsumed remainder.  Raw control characters are rejected, as in
the Go decoder. -/
def parseStringBody : List Char → Option (List Char × List Char)
  | [] => none
  | c :: rest =>
      if c == '"' then some ([], rest)
      else if c == '\\' then
        match rest with
        | 'u' :: h1 :: h2 :: h3 :: h4 :: rest2 => do
            let a ← hexVal h1
            let b ← hexVal h2
            let cc ← hexVal h3
            let d ← hexVal h4
            let p ← parseStringBody rest2
            pure (uChar (((a * 16 + b) * 16 + cc) * 16 + d) :: p.1, p.2)
        | e :: rest2 => do
            let ce ← unescapeChar e
            let p ← parseStringBody rest2
            pure (ce :: p.1, p.2)
        | [] => none
      else if c.toNat < 32 then none
      else do
        let p ← parseStringBody rest
        pure (c :: p.1, p.2)

/-! ### Decimal numbers (model of Go integer formatting and parsing) -/

/-- Decimal digit character for a value below 10. -/
def digitChar (n : Nat) : Char := Char.ofNat (48 + n)

/-- Value of a decimal digit character. -/
def digitVal (c : Char) : Option Nat :=
  if '0' ≤ c ∧ c ≤ '9' then some (c.toNat - 48) else none

/-- Fuel-indexed big-endian decimal rendering of a natural number. -/
def natCharsAux : Nat → Nat → List Char
  | 0, _ => []
  | fuel + 1, n =>
      if n < 10 then [digitChar n]
      else natCharsAux fuel (n / 10) ++ [digitChar (n % 10)]

/-- Big-endian decimal rendering of a natural number. -/
def natChars (n : Nat) : List Char := natCharsAux (n + 1) n

/-- Decimal rendering of an integer, as Go fmt and encoding/json print it. -/
def intChars (i : Int) : List Char :=
  if i < 0 then '-' :: natChars (-i).toNat else natChars i.toNat

/-- String form of an integer. -/
def intStr (i : Int) : String := String.mk (intChars i)

/-- Consume leading decimal digits, accumulating their value. -/
def parseDigitsAux : List Char → Nat → Nat × List Char
  | [], acc => (acc, [])
  | c :: rest, acc =>
      match digitVal c with
      | some d => parseDigitsAux rest (10 * acc + d)
      | none => (acc, c :: rest)

/-- Lists whose first character, if any, is not a decimal digit. -/
def nonDigitStart (l : List Char) : Prop :=
  ∀ c, l.head? = some c → digitVal c = none

/-- Folding function that accumulates a decimal value over digit characters. -/
def digitStep (a : Nat) (c : Char) : Nat := 10 * a + (digitVal c).getD 0

/-- Parse an optionally negated decimal integer from the front of a list;
fails unless at least one digit follows the optional minus sign. -/
def parseIntChars : List Char → Option (Int × List Char)
  | [] => none
  | c :: rest =>
      if c == '-' then
        match rest with
        | c2 :: _ =>
            if (digitVal c2).isSome then
              some (-(Int.ofNat (parseDigitsAux rest 0).1), (parseDigitsAux rest 0).2)
            else none
        | [] => none
      else if (digitVal c).isSome then
        some (Int.ofNat (parseDigitsAux (c :: rest) 0).1, (parseDigitsAux (c :: rest) 0).2)
      else none

/-- Models strconv.Atoi: optional sign, at least one digit, nothing else,
value restricted to the 64-bit signed range. -/
def atoi (s : String) : Option Int :=
  let core : List Char → Option Int := fun l =>
    match l with
    | [] => none
    | c :: _ =>
        if (digitVal c).isSome then
          match parseDigitsAux l 0 with
          | (v, []) => some (Int.ofNat v)
          | _ => none
        else none
  let signed : Option Int :=
    match s.data with
    | '+' :: rest => core rest
    | '-' :: rest => (core rest).map (fun v => -v)
    | l => core l
  match signed with
  | some v => if -(2 ^ 63) ≤ v ∧ v ≤ 2 ^ 63 - 1 then some v else none
  | none => none

/-! ### Flat JSON object parsing (model of encoding/json Unmarshal for the
objects this system reads and writes: compact objects whose members are
strings or integers) -/

/-- JSON member values occurring in this system. -/
inductive JVal where
  | jstr : String → JVal
  | jnum : Int → JVal
deriving DecidableEq

/-- Parse one member value: a string literal or an integer. -/
def parseJVal (l : List Char) : Option (JVal × List Char) :=
  match l with
  | [] => none
  | c :: rest =>
      if c == '"' then (parseStringBody rest).map (fun p => (JVal.jstr (String.mk p.1), p.2))
      else (parseIntChars (c :: rest)).map (fun p => (JVal.jnum p.1, p.2))

/-- Fuel-indexed parser for a nonempty member list, starting at the
opening quote of the first key and consuming the closing brace. -/
def parseMembersAux : Nat → List Char → Option (List (String × JVal) × List Char)
  | 0, _ => none
  | fuel + 1, l =>
      match l with
      | '"' :: rest => do
          let pk ← parseStringBody rest
          match pk.2 with
          | ':' :: r2 => do
              let pv ← parseJVal r2
              match pv.2 with
              | c :: r4 =>
                  if c == ',' then do
                    let pm ← parseMembersAux fuel r4
                    pure ((String.mk pk.1, pv.1) :: pm.1, pm.2)
                  else if c == rbrace then
                    pure ([(String.mk pk.1, pv.1)], r4)
                  else none
              | [] => none
          | _ => none
      | _ => none

/-- Parse a whole compact JSON object, requiring that nothing follows the
closing brace, and return its members in order. -/
def parseTopObject (l : List Char) : Option (List (String × JVal)) :=
  match l with
  | c :: rest =>
      if c == lbrace then
        match rest with
        | c2 :: r2 =>
            if c2 == rbrace then
              match r2 with
              | [] => some []
              | _ => none
            else
              match parseMembersAux (rest.length + 1) rest with
              | some (ms, []) => some ms
              | _ => none
        | [] => none
      else none
  | [] => none

/-! ### JSON object encoding (model of the output of encoding/json Marshal:
Go marshals struct fields in declaration order, compactly) -/

/-- Encode one member: quoted key, colon, value. -/
def encodeMember : String × JVal → List Char
  | (k, JVal.jstr s) => quoteChars k ++ ':' :: quoteChars s
  | (k, JVal.jnum i) => quoteChars k ++ ':' :: intChars i

/-- Encode a comma-separated member sequence, closed by the final brace. -/
def encodeMembersAux : List (String × JVal) → List Char
  | [] => [rbrace]
  | [m] => encodeMember m ++ [rbrace]
  | m :: ms => encodeMember m ++ ',' :: encodeMembersAux ms

/-- Compact JSON object for a member list. -/
def marshalObj (ms : List (String × JVal)) : List Char := lbrace :: encodeMembersAux ms

/-- Comma-separated concatenation for array elements. -/
def marshalArrAux : List (List Char) → List Char
  | [] => []
  | [x] => x
  | x :: xs => x ++ ',' :: marshalArrAux xs

/-- Compact JSON array from pre-encoded elements. -/
def marshalArr (items : List (List Char)) : List Char := '[' :: (marshalArrAux items ++ [']'])

/-! ### Data model (lambda/internal/model/post.go, the first program of
src/unnamed/part_000).  The Go struct has ID int, Title string,
Content string, CreatedAt time.Time and UpdatedAt time.Time with JSON tags
id, title, content, created_at and updated_at; the two timestamps are
modelled here by their JSON rendering (the RFC3339 string a time.Time
marshals to), so a timestamp is a string field. -/

/-- Blog post entity of the data model. -/
structure Post where
  ID : Int
  Title : String
  Content : String
  CreatedAt : String
  UpdatedAt : String
deriving DecidableEq

/-- Member list of a Post in Go struct-field declaration order. -/
def Post.members (p : Post) : List (String × JVal) :=
  [("id", JVal.jnum p.ID), ("title", JVal.jstr p.Title), ("content", JVal.jstr p.Content),
    ("created_at", JVal.jstr p.CreatedAt), ("updated_at", JVal.jstr p.UpdatedAt)]

/-- Models json.Marshal for a Post. -/
def marshalPost (p : Post) : String := String.mk (marshalObj p.members)

/-- Zero value of Post, the starting point of json.Unmarshal. -/
def zeroPost : Post := ⟨0, "", "", "", ""⟩

/-- Effect of one parsed member on a Post under json.Unmarshal: known keys
require the matching value shape, unknown keys are ignored, later
duplicates win. -/
def applyPostField : Post → String × JVal → Option Post
  | p, ("id", JVal.jnum i) => some {p with ID := i}
  | _, ("id", JVal.jstr _) => none
  | p, ("title", JVal.jstr s) => some {p with Title := s}
  | _, ("title", JVal.jnum _) => none
  | p, ("content", JVal.jstr s) => some {p with Content := s}
  | _, ("content", JVal.jnum _) => none
  | p, ("created_at", JVal.jstr s) => some {p with CreatedAt := s}
  | _, ("created_at", JVal.jnum _) => none
  | p, ("updated_at", JVal.jstr s) => some {p with UpdatedAt := s}
  | _, ("updated_at", JVal.jnum _) => none
  | p, (_, _) => some p

/-- Models json.Unmarshal of a byte string into a Post (flat compact
objects with string or integer members, which covers everything this
system writes and every shape it must distinguish). -/
def unmarshalPost (s : String) : Option Post :=
  (parseTopObject s.data).bind (fun ms => ms.foldlM applyPostField zeroPost)

/-- Create and update request DTO of the data model. -/
structure PostRequest where
  Title : String
  Content : String
deriving DecidableEq

/-- Effect of one parsed member on a PostRequest under json.Unmarshal. -/
def applyReqField : PostRequest → String × JVal → Option PostRequest
  | r, ("title", JVal.jstr s) => some {r with Title := s}
  | _, ("title", JVal.jnum _) => none
  | r, ("content", JVal.jstr s) => some {r with Content := s}
  | _, ("content", JVal.jnum _) => none
  | r, (_, _) => some r

/-- Models json.Unmarshal of a byte string into a PostRequest. -/
def unmarshalPostRequest (s : String) : Option PostRequest :=
  (parseTopObject s.data).bind (fun ms => ms.foldlM applyReqField ⟨"", ""⟩)

/-! ### Object storage model.  The bucket content is an association list
from keys to byte strings; the storage primitives mirror the S3 calls the
code makes.  An I/O fault in a primitive is injected through an explicit
boolean parameter: false gives the nominal behavior. -/

/-- Bucket contents: keys mapped to stored byte strings. -/
abbrev S3State := List (String × String)

/-- Remove every binding of a key. -/
def removeKey (st : S3State) (k : String) : S3State :=
  st.filter (fun kv => !(kv.1 == k))

/-- Store a value under a key, replacing any previous binding (models
s3 PutObject). -/
def putObject (st : S3State) (k v : String) : S3State := (k, v) :: removeKey st k

/-- Fetch the value stored under a key (models s3 GetObject content). -/
def lookupKey (st : S3State) (k : String) : Option String := st.lookup k

/-- Keys under a prefix, in storage order (models s3 ListObjectsV2). -/
def listKeys (st : S3State) (pfx : String) : List String :=
  (st.map Prod.fst).filter (fun k => strHasPref k pfx)

/-! ### Storage repository (src/internal/repository/s3.go) -/

namespace repository

/-- Storage key of a post: the Go code computes posts/<id>.json with
fmt.Sprintf. -/
def postKey (id : Int) : String :=
  String.mk ("posts/".data ++ intChars id ++ ".json".data)

/-- Error cases of getPostByKey, one per construction site in the source;
notFound is raised exactly on the NoSuchKey storage answer, getFailed and
readFailed wrap other I/O failures, unmarshalFailed wraps a JSON decode
failure.  The unknown backend error text is modelled by the fixed words io
error. -/
inductive GetErr where
  | notFound
  | getFailed
  | readFailed
  | unmarshalFailed
deriving DecidableEq

/-- Error message carried by each error case, as built with fmt.Errorf in
the source. -/
def GetErr.msg : GetErr → String
  | GetErr.notFound => "post not found"
  | GetErr.getFailed => "failed to get post: io error"
  | GetErr.readFailed => "failed to read post body: io error"
  | GetErr.unmarshalFailed => "failed to unmarshal post: invalid json"

/-- Models getPostByKey: GetObject (gf injects an I/O failure there, and a
missing key answers NoSuchKey), then reading the body (rf injects an I/O
failure there), then json.Unmarshal. -/
def getPostByKey (st : S3State) (key : String) (gf rf : Bool) : Except GetErr Post :=
  if gf then Except.error GetErr.getFailed
  else
    match lookupKey st key with
    | none => Except.error GetErr.notFound
    | some body =>
        if rf then Except.error GetErr.readFailed
        else
          match unmarshalPost body with
          | none => Except.error GetErr.unmarshalFailed
          | some p => Except.ok p

/-- Models savePost: json.Marshal then PutObject (pf injects an I/O
failure). -/
def savePost (st : S3State) (key : String) (post : Post) (pf : Bool) : Except String S3State :=
  if pf then Except.error ("failed to save post: io error")
  else Except.ok (putObject st key (marshalPost post))

/-- Models ListPosts: list keys under posts/ (lf injects an I/O failure),
keep only keys ending in .json, fetch and decode each one through
getPostByKey with per-key fault injection, and silently skip entries that
fail. -/
def ListPosts (st : S3State) (lf : Bool) (gf rf : String → Bool) : Except String (List Post) :=
  if lf then Except.error ("failed to list posts: io error")
  else
    Except.ok (((listKeys st "posts/").filter (fun k => strEndsWith k ".json")).foldr
      (fun k acc =>
        match getPostByKey st k (gf k) (rf k) with
        | Except.ok p => p :: acc
        | Except.error _ => acc) [])

/-- Models GetPost: fetch the object at the key derived from the id. -/
def GetPost (st : S3State) (id : Int) (gf rf : Bool) : Except GetErr Post :=
  getPostByKey st (postKey id) gf rf

/-- Models CreatePost: write the post at the key derived from the post id. -/
def CreatePost (st : S3State) (post : Post) (pf : Bool) : Except String S3State :=
  savePost st (postKey post.ID) post pf

/-- Models UpdatePost: force the body id to the path id, then write at the
key derived from the path id. -/
def UpdatePost (st : S3State) (id : Int) (post : Post) (pf : Bool) : Except String S3State :=
  savePost st (postKey id) {post with ID := id} pf

/-- Models DeletePost: DeleteObject at the derived key (df injects an I/O
failure); a failure is only logged, so the function returns success in
every case and the state is left unchanged when the delete call fails. -/
def DeletePost (st : S3State) (id : Int) (df : Bool) : Except String Unit × S3State :=
  if df then (Except.ok (), st) else (Except.ok (), removeKey st (postKey id))

end repository

/-! ### Service layer (BlogService of
docs/guides/refactoring/02-code-quality.md) -/

namespace service

/-- Models validatePostRequest: title and content must be nonempty after
trimming whitespace. -/
def validatePostRequest (req : PostRequest) : Except String Unit :=
  if goTrimSpace req.Title == "" then Except.error ("title is required")
  else if goTrimSpace req.Content == "" then Except.error ("content is required")
  else Except.ok ()

/-- Models generateNextID: list all posts and add one to the maximal id
seen, starting the scan at zero; a listing failure falls back to id 1. -/
def generateNextID (st : S3State) (lf : Bool) (gf rf : String → Bool) : Int :=
  match repository.ListPosts st lf gf rf with
  | Except.error _ => 1
  | Except.ok posts => posts.foldl (fun m p => if p.ID > m then p.ID else m) 0 + 1

/-- Models the service CreatePost: validate, generate the next id, build
the post and write it through the repository, wrapping error messages as
the source does with fmt.Errorf. -/
def CreatePost (st : S3State) (req : PostRequest) (lf : Bool) (gf rf : String → Bool)
    (pf : Bool) : Except String (Post × S3State) :=
  match validatePostRequest req with
  | Except.error e => Except.error ("invalid post request: " ++ e)
  | Except.ok _ =>
      let id := generateNextID st lf gf rf
      let post : Post := ⟨id, req.Title, req.Content, "", ""⟩
      match repository.CreatePost st post pf with
      | Except.error e => Except.error ("failed to create post: " ++ e)
      | Except.ok st2 => Except.ok (post, st2)

/-- Models the service GetPost: reject nonpositive ids before any storage
access, otherwise fetch through the repository.  The boolean result
records whether the repository fetch was invoked. -/
def GetPost (st : S3State) (id : Int) (gf rf : Bool) : Except String Post × Bool :=
  if id ≤ 0 then (Except.error ("invalid post ID: " ++ intStr id), false)
  else
    match repository.GetPost st id gf rf with
    | Except.error e => (Except.error ("failed to get post: " ++ e.msg), true)
    | Except.ok p => (Except.ok p, true)

/-- Models the service UpdatePost: reject nonpositive ids, validate the
request, fetch the existing post, overwrite its title and content, and
write it back through the repository. -/
def UpdatePost (st : S3State) (id : Int) (req : PostRequest) (gf rf pf : Bool) :
    Except String (Post × S3State) :=
  if id ≤ 0 then Except.error ("invalid post ID: " ++ intStr id)
  else
    match validatePostRequest req with
    | Except.error e => Except.error ("invalid post request: " ++ e)
    | Except.ok _ =>
        match repository.GetPost st id gf rf with
        | Except.error e => Except.error ("post not found: " ++ e.msg)
        | Except.ok existingPost =>
            let upd : Post := {existingPost with Title := req.Title, Content := req.Content}
            match repository.UpdatePost st id upd pf with
            | Except.error e => Except.error ("failed to update post: " ++ e)
            | Except.ok st2 => Except.ok (upd, st2)

end service

/-! ### Response builder (src/internal/response/response.go) -/

/-- Transport envelope produced by the handlers. -/
structure Response where
  statusCode : Nat
  body : String
  headers : List (String × String)
deriving DecidableEq

namespace response

/-- Models response.Success: 200 with a JSON body (the caller passes the
already marshalled data). -/
def Success (body : String) : Response :=
  ⟨200, body, [("Content-Type", "application/json")]⟩

/-- Models response.Created: 201 with a JSON body. -/
def Created (body : String) : Response :=
  ⟨201, body, [("Content-Type", "application/json")]⟩

/-- Models response.NoContent: 204 with an empty body and no content type. -/
def NoContent : Response := ⟨204, "", []⟩

/-- Models response.errorResponse: the given code with the message wrapped
in a JSON error object. -/
def errorResponse (code : Nat) (message : String) : Response :=
  ⟨code, String.mk (marshalObj [("error", JVal.jstr message)]),
    [("Content-Type", "application/json")]⟩

/-- Models response.BadRequest. -/
def BadRequest (message : String) : Response := errorResponse 400 message

/-- Models response.NotFound. -/
def NotFound (message : String) : Response := errorResponse 404 message

/-- Models response.InternalServerError. -/
def InternalServerError (message : String) : Response := errorResponse 500 message

end response

/-! ### Handler layer (BlogHandler of
docs/guides/refactoring/02-code-quality.md).  The handlers discriminate
service errors by substring search on the error message, as the source
does with strings.Contains. -/

namespace handler

/-- Models extractIDFromPath: strip the route prefix and run strconv.Atoi. -/
def extractIDFromPath (path : String) : Option Int := atoi (goTrimPref path "/posts/")

/-- Models handleGetPost.  The boolean result records whether a storage
fetch was invoked. -/
def handleGetPost (st : S3State) (path : String) (gf rf : Bool) : Response × Bool :=
  match extractIDFromPath path with
  | none => (response.BadRequest ("invalid post ID"), false)
  | some id =>
      match service.GetPost st id gf rf with
      | (Except.error e, fetched) =>
          if goContains e "not found" then (response.NotFound ("post not found"), fetched)
          else (response.InternalServerError ("failed to get post"), fetched)
      | (Except.ok p, fetched) => (response.Success (marshalPost p), fetched)

/-- Models handleCreatePost: parse the body as a PostRequest, call the
service, map invalid-flavored errors to 400 and others to 500. -/
def handleCreatePost (st : S3State) (body : String) (lf : Bool) (gf rf : String → Bool)
    (pf : Bool) : Response × S3State :=
  match unmarshalPostRequest body with
  | none => (response.BadRequest ("invalid request body"), st)
  | some req =>
      match service.CreatePost st req lf gf rf pf with
      | Except.error e =>
          if goContains e "invalid" then (response.BadRequest e, st)
          else (response.InternalServerError ("failed to create post"), st)
      | Except.ok (post, st2) => (response.Created (marshalPost post), st2)

/-- Models handleUpdatePost: parse the path id and the body, call the
service, map not-found errors to 404, invalid-flavored errors to 400 and
others to 500. -/
def handleUpdatePost (st : S3State) (path body : String) (gf rf pf : Bool) :
    Response × S3State :=
  match extractIDFromPath path with
  | none => (response.BadRequest ("invalid post ID"), st)
  | some id =>
      match unmarshalPostRequest body with
      | none => (response.BadRequest ("invalid request body"), st)
      | some req =>
          match service.UpdatePost st id req gf rf pf with
          | Except.error e =>
              if goContains e "not found" then (response.NotFound ("post not found"), st)
              else if goContains e "invalid" then (response.BadRequest e, st)
              else (response.InternalServerError ("failed to update post"), st)
          | Except.ok (post, st2) => (response.Success (marshalPost post), st2)

end handler

/-! ### Minimal CRUD Lambda (the second program of src/unnamed/part_007,
the lambda/cmd/blog/main.go variant).  Its Post struct has only id, title
and content.  Note the shape of its routes: the branch guarded by the PUT
method performs a DeleteObject and answers 204, and no DELETE branch
exists. -/

namespace crud

/-- Post struct of the minimal Lambda. -/
structure Post where
  ID : Int
  Title : String
  Content : String
deriving DecidableEq

/-- Member list in Go struct-field declaration order. -/
def Post.members (p : Post) : List (String × JVal) :=
  [("id", JVal.jnum p.ID), ("title", JVal.jstr p.Title), ("content", JVal.jstr p.Content)]

/-- Models json.Marshal for the minimal Post. -/
def marshalPost (p : Post) : String := String.mk (marshalObj p.members)

/-- Effect of one parsed member under json.Unmarshal for the minimal Post. -/
def applyField : Post → String × JVal → Option Post
  | p, ("id", JVal.jnum i) => some {p with ID := i}
  | _, ("id", JVal.jstr _) => none
  | p, ("title", JVal.jstr s) => some {p with Title := s}
  | _, ("title", JVal.jnum _) => none
  | p, ("content", JVal.jstr s) => some {p with Content := s}
  | _, ("content", JVal.jnum _) => none
  | p, (_, _) => some p

/-- Models json.Unmarshal into the minimal Post. -/
def unmarshalPost (s : String) : Option Post :=
  (parseTopObject s.data).bind (fun ms => ms.foldlM applyField ⟨0, "", ""⟩)

/-- Models jsonOK: 200 with a JSON body. -/
def jsonOK (body : String) : Response :=
  ⟨200, body, [("Content-Type", "application/json")]⟩

/-- Models errorJSON: the given code with a JSON error object body. -/
def errorJSON (code : Nat) (msg : String) : Response :=
  ⟨code, String.mk (marshalObj [("error", JVal.jstr msg)]),
    [("Content-Type", "application/json")]⟩

/-- Fault injection for the storage calls of one request. -/
structure Faults where
  listF : Bool
  getF : String → Bool
  putF : Bool
  delF : Bool

/-- The all-nominal fault assignment. -/
def noFaults : Faults := ⟨false, fun _ => false, false, false⟩

/-- Models the handle function of the minimal CRUD Lambda, route by route
in source order.  The result carries the response and the bucket state
after the request. -/
def handle (st : S3State) (method path body : String) (fl : Faults) : Response × S3State :=
  if method == "GET" && path == "/posts" then
    if fl.listF then (errorJSON 500 ("list failed"), st)
    else
      let posts := ((listKeys st "posts/").filter (fun k => strEndsWith k ".json")).foldr
        (fun k acc =>
          if fl.getF k then acc
          else
            match lookupKey st k with
            | none => acc
            | some b =>
                match unmarshalPost b with
                | some p => p :: acc
                | none => acc) []
      (jsonOK (String.mk (marshalArr (posts.map (fun p => marshalObj p.members)))), st)
  else if method == "GET" && strHasPref path "/posts/" then
    match atoi (goTrimPref path "/posts/") with
    | none => (errorJSON 400 ("invalid id: must be a number"), st)
    | some id =>
        let key := repository.postKey id
        if fl.getF key then (errorJSON 404 ("not found"), st)
        else
          match lookupKey st key with
          | none => (errorJSON 404 ("not found"), st)
          | some b => (⟨200, b, [("Content-Type", "application/json")]⟩, st)
  else if method == "POST" && path == "/posts" then
    match unmarshalPost body with
    | none => (errorJSON 400 ("invalid body: require id,title,content"), st)
    | some p =>
        if p.ID == 0 then (errorJSON 400 ("invalid body: require id,title,content"), st)
        else if fl.putF then (errorJSON 500 ("create failed"), st)
        else (jsonOK (marshalPost p), putObject st (repository.postKey p.ID) (marshalPost p))
  else if method == "PUT" && strHasPref path "/posts/" then
    match atoi (goTrimPref path "/posts/") with
    | none => (errorJSON 400 ("invalid id: must be a number"), st)
    | some id =>
        if fl.delF then (errorJSON 500 ("delete failed"), st)
        else (⟨204, "", []⟩, removeKey st (repository.postKey id))
  else (errorJSON 404 ("not found"), st)

end crud

/-! ### Derived notions used to state the claims -/

/-- Repository operations for reachability statements, each carrying its
fault injection. -/
inductive RepoOp where
  | create (post : Post) (pf : Bool)
  | update (id : Int) (post : Post) (pf : Bool)
  | delete (id : Int) (df : Bool)

/-- State after one repository operation; a failed write leaves the state
unchanged. -/
def applyRepoOp (st : S3State) : RepoOp → S3State
  | RepoOp.create post pf =>
      match repository.CreatePost st post pf with
      | Except.ok st2 => st2
      | Except.error _ => st
  | RepoOp.update id post pf =>
      match repository.UpdatePost st id post pf with
      | Except.ok st2 => st2
      | Except.error _ => st
  | RepoOp.delete id df => (repository.DeletePost st id df).2

/-- State after a sequence of repository operations. -/
def applyRepoOps (st : S3State) (ops : List RepoOp) : S3State := ops.foldl applyRepoOp st

/-- Invariant: every stored object sits at a key posts/<id>.json and decodes
to a Post whose id field equals the id embedded in the key. -/
def KeyMatchesId (st : S3State) : Prop :=
  ∀ kv ∈ st, ∃ id p, kv.1 = repository.postKey id ∧ unmarshalPost kv.2 = some p ∧ p.ID = id

/-- Keys of the post objects in storage: under the posts/ namespace with
the .json suffix. -/
def postJsonKeys (st : S3State) : List String :=
  (listKeys st "posts/").filter (fun k => strEndsWith k ".json")

/-- A stored key can be fetched and decoded at call time: no fault is
injected on its fetch or read, it is bound in storage, and its bytes
decode as a Post. -/
def decodableAt (st : S3State) (gf rf : String → Bool) (k : String) : Bool :=
  !(gf k) && !(rf k) &&
    (match lookupKey st k with
     | some b => (unmarshalPost b).isSome
     | none => false)

/-- Ids of the decodable post objects in storage. -/
def storedIds (st : S3State) : List Int :=
  (postJsonKeys st).filterMap (fun k => ((lookupKey st k).bind unmarshalPost).map Post.ID)

/-! ### Round-trip lemmas for the JSON model -/

lemma hexVal_hexDigitChar (n : Nat) (h : n < 16) : hexVal (hexDigitChar n) = some n := by
  interval_cases n <;> decide

lemma uChar_toNat (c : Char) (h : ¬ (55296 ≤ c.toNat ∧ c.toNat ≤ 57343)) : uChar c.toNat = c := by
  unfold uChar
  rw [if_neg h]
  exact Char.ofNat_toNat c

lemma parseStringBody_escape (s rest : List Char) :
    parseStringBody (escapeChars s ++ '"' :: rest) = some (s, rest) := by
  induction s with
  | nil =>
    show parseStringBody ('"' :: rest) = _
    unfold parseStringBody
    simp
  | cons c s ih =>
    show parseStringBody ((escapeChar c ++ escapeChars s) ++ '"' :: rest) = _
    rw [List.append_assoc]
    by_cases h1 : c = '"'
    · subst h1; simp [escapeChar, parseStringBody, unescapeChar, ih]
    by_cases h2 : c = '\\'
    · subst h2; simp [escapeChar, parseStringBody, unescapeChar, ih]
    by_cases h3 : c = '\n'
    · subst h3; simp [escapeChar, parseStringBody, unescapeChar, ih]
    by_cases h4 : c = '\r'
    · subst h4; simp [escapeChar, parseStringBody, unescapeChar, ih]
    by_cases h5 : c = '\t'
    · subst h5; simp [escapeChar, parseStringBody, unescapeChar, ih]
    by_cases h6 : c = '<'
    · subst h6
      simp [escapeChar, parseStringBody, hexVal, ih]
      decide
    by_cases h7 : c = '>'
    · subst h7
      simp [escapeChar, parseStringBody, hexVal, ih]
      decide
    by_cases h8 : c = '&'
    · subst h8
      simp [escapeChar, parseStringBody, hexVal, ih]
      decide
    by_cases h9 : c.toNat < 32
    · have e0 : hexVal '0' = some 0 := by decide
      have e1 : hexVal (hexDigitChar (c.toNat / 16)) = some (c.toNat / 16) :=
        hexVal_hexDigitChar _ (by omega)
      have e2 : hexVal (hexDigitChar (c.toNat % 16)) = some (c.toNat % 16) :=
        hexVal_hexDigitChar _ (by omega)
      simp [escapeChar, h1, h2, h3, h4, h5, h6, h7, h8, h9, parseStringBody, e0, e1, e2, ih]
      rw [show c.toNat / 16 * 16 + c.toNat % 16 = c.toNat from by omega,
        uChar_toNat c (by omega)]
    by_cases h10 : c.toNat = 8232
    · have hc : c = Char.ofNat 8232 := by rw [← h10, Char.ofNat_toNat]
      subst hc
      simp [escapeChar, parseStringBody, hexVal, ih, h9]
      decide
    by_cases h11 : c.toNat = 8233
    · have hc : c = Char.ofNat 8233 := by rw [← h11, Char.ofNat_toNat]
      subst hc
      simp [escapeChar, parseStringBody, hexVal, ih, h9]
      decide
    · have hesc : escapeChar c = [c] := by
        simp [escapeChar, h1, h2, h3, h4, h5, h6, h7, h8, h9, h10, h11]
      rw [hesc]
      show parseStringBody (c :: (escapeChars s ++ '"' :: rest)) = _
      unfold parseStringBody
      simp [h1, h2, h9, ih]

lemma digitVal_digitChar (n : Nat) (h : n < 10) : digitVal (digitChar n) = some n := by
  interval_cases n <;> decide

lemma parseDigitsAux_append (ds rest : List Char) (acc : Nat)
    (h : ∀ c ∈ ds, (digitVal c).isSome = true) :
    parseDigitsAux (ds ++ rest) acc = parseDigitsAux rest (List.foldl digitStep acc ds) := by
  induction ds generalizing acc with
  | nil => simp
  | cons c ds ih =>
    have hc : (digitVal c).isSome = true := h c (by simp)
    obtain ⟨d, hd⟩ := Option.isSome_iff_exists.mp hc
    simp only [List.cons_append, parseDigitsAux, hd, List.foldl_cons]
    rw [show ds.append rest = ds ++ rest from rfl,
      ih _ (fun c hx => h c (List.mem_cons_of_mem _ hx))]
    simp [digitStep, hd]

lemma parseDigitsAux_stop (rest : List Char) (acc : Nat) (h : nonDigitStart rest) :
    parseDigitsAux rest acc = (acc, rest) := by
  cases rest with
  | nil => simp [parseDigitsAux]
  | cons c rest =>
    have := h c (by simp)
    simp [parseDigitsAux, this]

lemma natCharsAux_digits (fuel n : Nat) (h : n < 10 ^ fuel) :
    ∀ c ∈ natCharsAux fuel n, (digitVal c).isSome = true := by
  induction fuel generalizing n with
  | zero => simp [natCharsAux]
  | succ fuel ih =>
    intro c hc
    by_cases hn : n < 10
    · simp only [natCharsAux, if_pos hn, List.mem_singleton] at hc
      simp [hc, digitVal_digitChar n hn]
    · simp only [natCharsAux, if_neg hn, List.mem_append, List.mem_singleton] at hc
      rcases hc with hc | hc
      · exact ih (n / 10) (by rw [Nat.div_lt_iff_lt_mul (by norm_num)]; rw [pow_succ] at h; omega) c hc
      · simp [hc, digitVal_digitChar _ (Nat.mod_lt n (by norm_num))]

lemma foldl_digitStep_natCharsAux (fuel n acc : Nat) (h : n < 10 ^ fuel) :
    List.foldl digitStep acc (natCharsAux fuel n) =
      acc * 10 ^ (natCharsAux fuel n).length + n := by
  induction fuel generalizing n acc with
  | zero =>
    have : n = 0 := by simpa using h
    simp [natCharsAux, this]
  | succ fuel ih =>
    by_cases hn : n < 10
    · simp [natCharsAux, if_pos hn, digitStep, digitVal_digitChar n hn]
      ring
    · have hdiv : n / 10 < 10 ^ fuel := by
        rw [Nat.div_lt_iff_lt_mul (by norm_num)]
        rw [pow_succ] at h
        omega
      simp only [natCharsAux, if_neg hn, List.foldl_append, List.foldl_cons, List.foldl_nil,
        List.length_append, List.length_cons, List.length_nil]
      rw [ih (n / 10) acc hdiv]
      have hmod : (digitVal (digitChar (n % 10))).getD 0 = n % 10 := by
        rw [digitVal_digitChar _ (Nat.mod_lt n (by norm_num))]
        rfl
      simp only [digitStep, hmod]
      set Y := 10 ^ (natCharsAux fuel (n / 10)).length with hY
      have hn10 : 10 * (n / 10) + n % 10 = n := by omega
      calc 10 * (acc * Y + n / 10) + n % 10
          = acc * Y * 10 + (10 * (n / 10) + n % 10) := by ring
        _ = acc * (Y * 10) + n := by rw [hn10]; ring
        _ = acc * (Y * 10 ^ 1) + n := by norm_num
        _ = acc * 10 ^ ((natCharsAux fuel (n / 10)).length + 0 + 1) + n := by
              rw [pow_add, pow_add]
              norm_num

lemma natChars_digits (n : Nat) : ∀ c ∈ natChars n, (digitVal c).isSome = true := by
  refine natCharsAux_digits (n + 1) n ?_
  calc n < 10 ^ n := Nat.lt_pow_self (by norm_num) n
    _ ≤ 10 ^ (n + 1) := Nat.pow_le_pow_right (by norm_num) (Nat.le_succ n)

lemma natChars_lt (n : Nat) : n < 10 ^ (n + 1) :=
  calc n < 10 ^ n := Nat.lt_pow_self (by norm_num) n
    _ ≤ 10 ^ (n + 1) := Nat.pow_le_pow_right (by norm_num) (Nat.le_succ n)

lemma natChars_ne_nil (n : Nat) : natChars n ≠ [] := by
  unfold natChars natCharsAux
  by_cases h : n < 10 <;> simp [h]

lemma parseDigitsAux_natChars (n : Nat) (rest : List Char) (h : nonDigitStart rest) :
    parseDigitsAux (natChars n ++ rest) 0 = (n, rest) := by
  rw [parseDigitsAux_append _ _ _ (natChars_digits n), parseDigitsAux_stop _ _ h]
  have := foldl_digitStep_natCharsAux (n + 1) n 0 (natChars_lt n)
  rw [show natChars n = natCharsAux (n + 1) n from rfl, this]
  simp

lemma parseIntChars_intChars (i : Int) (rest : List Char) (h : nonDigitStart rest) :
    parseIntChars (intChars i ++ rest) = some (i, rest) := by
  by_cases hi : i < 0
  · have hform : intChars i = '-' :: natChars (-i).toNat := by simp [intChars, hi]
    rw [hform]
    obtain ⟨c, l1, hl⟩ := List.exists_cons_of_ne_nil (natChars_ne_nil (-i).toNat)
    have hcd : (digitVal c).isSome = true :=
      natChars_digits _ c (by rw [hl]; exact List.mem_cons_self _ _)
    have hpd : parseDigitsAux (natChars (-i).toNat ++ rest) 0 = ((-i).toNat, rest) :=
      parseDigitsAux_natChars _ rest h
    rw [List.cons_append, hl, List.cons_append]
    simp only [parseIntChars]
    rw [if_pos (by decide : (('-' : Char) == '-') = true)]
    simp only [hcd, if_pos]
    rw [show c :: (l1 ++ rest) = (c :: l1) ++ rest from rfl, ← hl, hpd]
    have hnn : (0 : Int) ≤ -i := by omega
    have : ((-i).toNat : Int) = -i := Int.toNat_of_nonneg hnn
    simp [this]
  · have hform : intChars i = natChars i.toNat := by simp [intChars, hi]
    rw [hform]
    obtain ⟨c, l1, hl⟩ := List.exists_cons_of_ne_nil (natChars_ne_nil i.toNat)
    have hcd : (digitVal c).isSome = true :=
      natChars_digits _ c (by rw [hl]; exact List.mem_cons_self _ _)
    have hcm : (c == '-') = false := by
      rw [beq_eq_false_iff_ne]
      intro hc
      rw [hc] at hcd
      simp [digitVal] at hcd
    have hpd : parseDigitsAux (natChars i.toNat ++ rest) 0 = (i.toNat, rest) :=
      parseDigitsAux_natChars _ rest h
    rw [hl, List.cons_append]
    simp only [parseIntChars, hcm]
    simp only [Bool.false_eq_true, if_false, hcd, if_pos]
    rw [show c :: (l1 ++ rest) = (c :: l1) ++ rest from rfl, ← hl, hpd]
    have : (i.toNat : Int) = i := Int.toNat_of_nonneg (by omega)
    simp [this]

lemma quoteChars_shape (k : String) (tail : List Char) :
    quoteChars k ++ tail = '"' :: (escapeChars k.data ++ '"' :: tail) := by
  simp [quoteChars]

lemma string_mk_data (s : String) : String.mk s.data = s := rfl

lemma parseJVal_jstr (s : String) (tail : List Char) :
    parseJVal (quoteChars s ++ tail) = some (JVal.jstr s, tail) := by
  rw [quoteChars_shape]
  simp only [parseJVal]
  rw [if_pos (by decide : (('"' : Char) == '"') = true)]
  rw [parseStringBody_escape]
  rfl

lemma parseJVal_jnum (i : Int) (tail : List Char) (h : nonDigitStart tail) :
    parseJVal (intChars i ++ tail) = some (JVal.jnum i, tail) := by
  obtain ⟨c, l1, hl⟩ : ∃ c l1, intChars i = c :: l1 := by
    unfold intChars
    by_cases hi : i < 0
    · simp [hi]
    · simp only [hi, if_false]
      exact List.exists_cons_of_ne_nil (natChars_ne_nil i.toNat)
  have hnq : (c == '"') = false := by
    rw [beq_eq_false_iff_ne]
    intro hc
    subst hc
    unfold intChars at hl
    by_cases hi : i < 0
    · rw [if_pos hi] at hl
      exact absurd (List.head_eq_of_cons_eq hl.symm) (by decide)
    · rw [if_neg hi] at hl
      have := natChars_digits i.toNat '"' (by rw [hl]; exact List.mem_cons_self _ _)
      simp [digitVal] at this
  rw [hl, List.cons_append]
  simp only [parseJVal, hnq, Bool.false_eq_true, if_false]
  rw [show c :: (l1 ++ tail) = (c :: l1) ++ tail from rfl, ← hl, parseIntChars_intChars i tail h]
  rfl
lemma nonDigitStart_comma (r : List Char) : nonDigitStart (',' :: r) := by
  intro c hc
  simp at hc
  subst hc
  decide

lemma nonDigitStart_rbrace (r : List Char) : nonDigitStart (rbrace :: r) := by
  intro c hc
  simp at hc
  subst hc
  decide

lemma encodeMember_shape (k : String) (v : JVal) (tail : List Char) :
    encodeMember (k, v) ++ tail =
      '"' :: (escapeChars k.data ++ '"' :: ':' ::
        ((match v with
          | JVal.jstr s => quoteChars s
          | JVal.jnum i => intChars i) ++ tail)) := by
  cases v <;> simp [encodeMember, quoteChars]

lemma parseMembersAux_member (fuel : Nat) (k : String) (v : JVal) (sep : Char)
    (r4 : List Char) (hsep : sep = ',' ∨ sep = rbrace) :
    parseMembersAux (fuel + 1) (encodeMember (k, v) ++ sep :: r4) =
      if sep == ',' then
        (parseMembersAux fuel r4).map (fun pm => ((k, v) :: pm.1, pm.2))
      else some ([(k, v)], r4) := by
  rw [encodeMember_shape]
  simp only [parseMembersAux]
  rw [parseStringBody_escape]
  have hval : parseJVal ((match v with
      | JVal.jstr s => quoteChars s
      | JVal.jnum i => intChars i) ++ sep :: r4) = some (v, sep :: r4) := by
    cases v with
    | jstr s => exact parseJVal_jstr s _
    | jnum i =>
        refine parseJVal_jnum i _ ?_
        rcases hsep with h | h <;> subst h
        · exact nonDigitStart_comma r4
        · exact nonDigitStart_rbrace r4
  simp only [Option.pure_def, Option.bind_eq_bind, Option.some_bind]
  simp only [hval, Option.some_bind]
  rcases hsep with h | h <;> subst h
  · rw [if_pos (by decide : ((',' : Char) == ',') = true),
      if_pos (by decide : ((',' : Char) == ',') = true)]
    cases parseMembersAux fuel r4 <;> rfl
  · rw [if_neg (by decide : ¬ ((rbrace == ',') = true)),
      if_neg (by decide : ¬ ((rbrace == ',') = true)),
      if_pos (by decide : (rbrace == rbrace) = true)]
lemma parseMembersAux_encodeList (ms : List (String × JVal)) (fuel : Nat)
    (hne : ms ≠ []) (hlen : ms.length ≤ fuel) :
    parseMembersAux fuel (encodeMembersAux ms) = some (ms, []) := by
  induction ms generalizing fuel with
  | nil => exact absurd rfl hne
  | cons m ms ih =>
    obtain ⟨f, rfl⟩ : ∃ f, fuel = f + 1 := by
      cases fuel with
      | zero => simp at hlen
      | succ f => exact ⟨f, rfl⟩
    cases ms with
    | nil =>
        rw [show encodeMembersAux [m] = encodeMember m ++ rbrace :: [] from by
          simp [encodeMembersAux]]
        rw [show encodeMember m = encodeMember (m.1, m.2) from rfl]
        rw [parseMembersAux_member f m.1 m.2 rbrace [] (Or.inr rfl)]
        rw [if_neg (by decide : ¬ ((rbrace == ',') = true))]
    | cons m2 ms2 =>
        rw [show encodeMembersAux (m :: m2 :: ms2)
            = encodeMember m ++ ',' :: encodeMembersAux (m2 :: ms2) from by
          simp [encodeMembersAux]]
        rw [show encodeMember m = encodeMember (m.1, m.2) from rfl]
        rw [parseMembersAux_member f m.1 m.2 ',' _ (Or.inl rfl)]
        rw [if_pos (by decide : ((',' : Char) == ',') = true)]
        rw [ih f (by simp) (by simp at hlen ⊢; omega)]
        rfl

lemma encodeMembersAux_len (ms : List (String × JVal)) :
    ms.length ≤ (encodeMembersAux ms).length := by
  induction ms with
  | nil => simp [encodeMembersAux]
  | cons m ms ih =>
    cases ms with
    | nil => simp [encodeMembersAux]
    | cons m2 ms2 =>
        rw [show encodeMembersAux (m :: m2 :: ms2)
            = encodeMember m ++ ',' :: encodeMembersAux (m2 :: ms2) from by
          simp [encodeMembersAux]]
        simp only [List.length_cons, List.length_append]
        simp at ih ⊢
        omega

lemma encodeMember_head (m : String × JVal) : ∃ t0, encodeMember m = '"' :: t0 := by
  rcases m with ⟨k, v⟩
  cases v with
  | jstr s =>
      exact ⟨escapeChars k.data ++ '"' :: ':' :: quoteChars s, by
        simp [encodeMember, quoteChars]⟩
  | jnum i =>
      exact ⟨escapeChars k.data ++ '"' :: ':' :: intChars i, by
        simp [encodeMember, quoteChars]⟩

lemma encodeMembersAux_head (m : String × JVal) (ms : List (String × JVal)) :
    ∃ t, encodeMembersAux (m :: ms) = '"' :: t := by
  obtain ⟨t0, ht0⟩ := encodeMember_head m
  cases ms with
  | nil => exact ⟨t0 ++ [rbrace], by simp [encodeMembersAux, ht0]⟩
  | cons m2 ms2 =>
      refine ⟨t0 ++ ',' :: encodeMembersAux (m2 :: ms2), ?_⟩
      rw [show encodeMembersAux (m :: m2 :: ms2)
          = encodeMember m ++ ',' :: encodeMembersAux (m2 :: ms2) from by simp [encodeMembersAux],
        ht0, List.cons_append]

lemma parseTopObject_marshalObj (ms : List (String × JVal)) (hne : ms ≠ []) :
    parseTopObject (marshalObj ms) = some ms := by
  obtain ⟨m, ms2, rfl⟩ := List.exists_cons_of_ne_nil hne
  obtain ⟨t, ht⟩ := encodeMembersAux_head m ms2
  show parseTopObject (lbrace :: encodeMembersAux (m :: ms2)) = _
  simp only [parseTopObject]
  rw [if_pos (by decide : (lbrace == lbrace) = true)]
  rw [ht]
  have hq : (('"' : Char) == rbrace) = false := by decide
  have hp : parseMembersAux (('"' :: t).length + 1) ('"' :: t) = some (m :: ms2, []) := by
    rw [← ht]
    refine parseMembersAux_encodeList (m :: ms2) _ (by simp) ?_
    exact Nat.le_succ_of_le (encodeMembersAux_len (m :: ms2))
  simp only [hq, Bool.false_eq_true, if_false, hp]
lemma unmarshal_marshal_post (p : Post) : unmarshalPost (marshalPost p) = some p := by
  unfold unmarshalPost marshalPost
  rw [show (String.mk (marshalObj p.members)).data = marshalObj p.members from rfl]
  rw [parseTopObject_marshalObj p.members (by cases p; simp [Post.members])]
  cases p
  rfl

lemma lookupKey_removeKey (st : S3State) (k : String) :
    lookupKey (removeKey st k) k = none := by
  induction st with
  | nil => rfl
  | cons kv st ih =>
    by_cases h : kv.1 = k
    · simp [removeKey, lookupKey, h] at ih ⊢
      simpa [removeKey, lookupKey] using ih
    · have hb : (kv.1 == k) = false := beq_eq_false_iff_ne.mpr h
      have hb2 : (k == kv.1) = false := beq_eq_false_iff_ne.mpr (Ne.symm h)
      simp only [removeKey, List.filter_cons, hb, Bool.not_false, if_pos]
      simp only [lookupKey, List.lookup, hb2]
      simpa [removeKey, lookupKey] using ih

lemma lookupKey_putObject (st : S3State) (k v : String) :
    lookupKey (putObject st k v) k = some v := by
  simp [putObject, lookupKey, List.lookup]

lemma lookupKey_mem (st : S3State) (k v : String) (h : lookupKey st k = some v) :
    (k, v) ∈ st := by
  induction st with
  | nil => simp [lookupKey, List.lookup] at h
  | cons kv st ih =>
    rcases kv with ⟨k1, v1⟩
    by_cases hk : k = k1
    · subst hk
      simp only [lookupKey, List.lookup, beq_self_eq_true] at h
      simp at h
      simp [h]
    · have hb : (k == k1) = false := beq_eq_false_iff_ne.mpr hk
      simp only [lookupKey, List.lookup, hb] at h
      exact List.mem_cons_of_mem _ (ih h)

lemma mem_keys_lookup (st : S3State) (k : String) (h : k ∈ st.map Prod.fst) :
    ∃ v, lookupKey st k = some v := by
  induction st with
  | nil => simp at h
  | cons kv st ih =>
    rcases kv with ⟨k1, v1⟩
    by_cases hk : k = k1
    · subst hk
      exact ⟨v1, by simp [lookupKey, List.lookup]⟩
    · have hb : (k == k1) = false := beq_eq_false_iff_ne.mpr hk
      simp only [List.map_cons, List.mem_cons] at h
      rcases h with h | h
      · exact absurd h hk
      · obtain ⟨v, hv⟩ := ih h
        exact ⟨v, by simp only [lookupKey, List.lookup, hb]; exact hv⟩
lemma listIsPref_subset (a b : List Char) (h : listIsPref a b = true) : ∀ c ∈ a, c ∈ b := by
  induction a generalizing b with
  | nil => simp
  | cons x a ih =>
    cases b with
    | nil => simp [listIsPref] at h
    | cons y b =>
        simp only [listIsPref, Bool.and_eq_true, beq_iff_eq] at h
        intro c hc
        rcases List.mem_cons.mp hc with hc | hc
        · subst hc
          simp [h.1]
        · exact List.mem_cons_of_mem _ (ih b h.2 c hc)

lemma containsAux_subset (sub l : List Char) (h : containsAux sub l = true) : ∀ c ∈ sub, c ∈ l := by
  induction l with
  | nil =>
    cases sub with
    | nil => simp
    | cons x s => simp [containsAux, listIsPref] at h
  | cons y l ih =>
    simp only [containsAux, Bool.or_eq_true] at h
    rcases h with h | h
    · exact listIsPref_subset _ _ h
    · intro c hc
      exact List.mem_cons_of_mem _ (ih h c hc)

lemma intChars_chars (i : Int) : ∀ c ∈ intChars i, c = '-' ∨ (digitVal c).isSome = true := by
  intro c hc
  unfold intChars at hc
  by_cases hi : i < 0
  · rw [if_pos hi] at hc
    rcases List.mem_cons.mp hc with hc | hc
    · exact Or.inl hc
    · exact Or.inr (natChars_digits _ c hc)
  · rw [if_neg hi] at hc
    exact Or.inr (natChars_digits _ c hc)

lemma goContains_invalid_id (i : Int) :
    goContains ("invalid post ID: " ++ intStr i) "not found" = false := by
  by_contra hne
  have h : containsAux "not found".data ("invalid post ID: " ++ intStr i).data = true := by
    revert hne
    unfold goContains
    cases containsAux "not found".data ("invalid post ID: " ++ intStr i).data <;> simp
  have hf : ('f' : Char) ∈ ("invalid post ID: " ++ intStr i).data :=
    containsAux_subset _ _ h 'f' (by decide)
  have hsplit : ("invalid post ID: " ++ intStr i).data
      = "invalid post ID: ".data ++ intChars i := rfl
  rw [hsplit] at hf
  rcases List.mem_append.mp hf with hf | hf
  · exact absurd hf (by decide)
  · rcases intChars_chars i 'f' hf with hcon | hcon
    · exact absurd hcon (by decide)
    · exact absurd hcon (by decide)
/-- Claim C9: decoding the JSON encoding of any Post yields the same Post. -/
theorem C9_post_decode_encode (p : Post) : unmarshalPost (marshalPost p) = some p :=
  unmarshal_marshal_post p

/-- Claim C6: DeletePost succeeds on every state, also when the key is
absent, and a DeletePost followed by a GetPost on the same id answers
the notFound error, whether or not the id existed before. -/
theorem C6_delete_then_get_notFound (st : S3State) (id : Int) :
    (repository.DeletePost st id false).1 = Except.ok () ∧
    repository.GetPost (repository.DeletePost st id false).2 id false false
      = Except.error repository.GetErr.notFound := by
  constructor
  · rfl
  · show repository.GetPost (removeKey st (repository.postKey id)) id false false = _
    unfold repository.GetPost repository.getPostByKey
    rw [if_neg (by simp)]
    rw [lookupKey_removeKey]

/-- Claim C10: the repository DeletePost returns success for every input,
every state and every fault outcome of the underlying storage delete; a
failing delete is only logged, leaving the state unchanged, so a
reportedly successful delete can leave the object in storage. -/
theorem C10_delete_never_errors (st : S3State) (id : Int) (df : Bool) :
    (repository.DeletePost st id df).1 = Except.ok () ∧
    (df = true → (repository.DeletePost st id df).2 = st) := by
  cases df <;> simp [repository.DeletePost]

theorem C10_delete_never_errors_witness :
    (repository.DeletePost [(repository.postKey 1, "x")] 1 true).1 = Except.ok () ∧
    (repository.DeletePost [(repository.postKey 1, "x")] 1 true).2
      = [(repository.postKey 1, "x")] :=
  ⟨(C10_delete_never_errors [(repository.postKey 1, "x")] 1 true).1,
    (C10_delete_never_errors [(repository.postKey 1, "x")] 1 true).2 rfl⟩

/-- Claim C1, evaluation at the failing input: in the minimal CRUD Lambda
of src/unnamed/part_007, a PUT request for an existing post with a
well-formed PostRequest body deletes the stored object and answers 204
with an empty body, instead of updating it and answering 200. -/
theorem C1_put_route_deletes :
    (crud.handle [(repository.postKey 1, crud.marshalPost ⟨1, "Hello", "World"⟩)]
        "PUT" "/posts/1" "\x7b\"title\":\"Hi\",\"content\":\"There\"\x7d" crud.noFaults).1
      = ⟨204, "", []⟩ ∧
    lookupKey (crud.handle [(repository.postKey 1, crud.marshalPost ⟨1, "Hello", "World"⟩)]
        "PUT" "/posts/1" "\x7b\"title\":\"Hi\",\"content\":\"There\"\x7d" crud.noFaults).2
        (repository.postKey 1)
      = none := by
  constructor
  · rfl
  · rfl
/-- Claim C8, counterexample: a GET for the id segment 0 parses fine, so
the refactored dispatcher does not answer 400; the service rejects the id
and the handler maps it to 500. -/
theorem C8_get_zero_id_500 :
    (handler.handleGetPost [] "/posts/0" false false).1.statusCode = 500 ∧
    (handler.handleGetPost [] "/posts/0" false false).2 = false := ⟨rfl, rfl⟩

/-- Claim C8, amended: an id segment that strconv.Atoi rejects answers 400
with no storage fetch; a segment parsing to zero or a negative number is
rejected by the service before any storage fetch but answers 500. -/
theorem C8_bad_id_segment (st : S3State) (path : String) (gf rf : Bool) :
    (handler.extractIDFromPath path = none →
      handler.handleGetPost st path gf rf = (response.BadRequest ("invalid post ID"), false)) ∧
    (∀ i, handler.extractIDFromPath path = some i → i ≤ 0 →
      handler.handleGetPost st path gf rf
        = (response.InternalServerError ("failed to get post"), false)) := by
  constructor
  · intro h
    simp [handler.handleGetPost, h]
  · intro i hi hle
    have hsvc : service.GetPost st i gf rf
        = (Except.error ("invalid post ID: " ++ intStr i), false) := by
      unfold service.GetPost
      rw [if_pos hle]
    simp [handler.handleGetPost, hi, hsvc, goContains_invalid_id i]

theorem C8_bad_id_segment_witness :
    handler.handleGetPost [] "/posts/abc" false false
      = (response.BadRequest ("invalid post ID"), false) ∧
    handler.handleGetPost [] "/posts/-7" false false
      = (response.InternalServerError ("failed to get post"), false) :=
  ⟨(C8_bad_id_segment [] "/posts/abc" false false).1 rfl,
    (C8_bad_id_segment [] "/posts/-7" false false).2 (-7) rfl (by decide)⟩
lemma validate_empty (req : PostRequest)
    (hempty : goTrimSpace req.Title = "" ∨ goTrimSpace req.Content = "") :
    service.validatePostRequest req = Except.error ("title is required") ∨
    service.validatePostRequest req = Except.error ("content is required") := by
  by_cases ht : goTrimSpace req.Title = ""
  · left
    unfold service.validatePostRequest
    rw [if_pos (by rw [ht]; rfl)]
  · right
    have hc : goTrimSpace req.Content = "" := hempty.resolve_left ht
    unfold service.validatePostRequest
    rw [if_neg (by simp [beq_eq_false_iff_ne.mpr ht]), if_pos (by rw [hc]; rfl)]

/-- Claim C7, counterexample: the minimal CRUD Lambda accepts a POST whose
title and content are empty, answers 200 and writes the object. -/
theorem C7_empty_title_accepted :
    (crud.handle [] "POST" "/posts" "\x7b\"id\":1,\"title\":\"\",\"content\":\"\"\x7d"
        crud.noFaults).1.statusCode = 200 ∧
    (crud.handle [] "POST" "/posts" "\x7b\"id\":1,\"title\":\"\",\"content\":\"\"\x7d"
        crud.noFaults).2
      = [(repository.postKey 1, crud.marshalPost ⟨1, "", ""⟩)] := ⟨rfl, rfl⟩

lemma handleCreatePost_reject (st : S3State) (body : String) (req : PostRequest) (e : String)
    (lf : Bool) (gf rf : String → Bool) (pf : Bool)
    (hparse : unmarshalPostRequest body = some req)
    (hv : service.validatePostRequest req = Except.error e)
    (hgc : goContains ("invalid post request: " ++ e) "invalid" = true) :
    (handler.handleCreatePost st body lf gf rf pf).1.statusCode = 400 ∧
    (handler.handleCreatePost st body lf gf rf pf).2 = st := by
  have hsvc : service.CreatePost st req lf gf rf pf
      = Except.error ("invalid post request: " ++ e) := by
    unfold service.CreatePost
    rw [hv]
  constructor <;>
    simp [handler.handleCreatePost, hparse, hsvc, hgc, response.BadRequest,
      response.errorResponse]

lemma handleUpdatePost_reject (st : S3State) (path body : String) (req : PostRequest) (e : String)
    (gf2 rf2 pf2 : Bool)
    (hparse : unmarshalPostRequest body = some req)
    (hv : service.validatePostRequest req = Except.error e)
    (hgc : goContains ("invalid post request: " ++ e) "invalid" = true)
    (hnf : goContains ("invalid post request: " ++ e) "not found" = false) :
    (handler.handleUpdatePost st path body gf2 rf2 pf2).1.statusCode = 400 ∧
    (handler.handleUpdatePost st path body gf2 rf2 pf2).2 = st := by
  rcases hext : handler.extractIDFromPath path with _ | id
  · constructor <;>
      simp [handler.handleUpdatePost, hext, response.BadRequest, response.errorResponse]
  · by_cases hle : id ≤ 0
    · have hsvc : service.UpdatePost st id req gf2 rf2 pf2
          = Except.error ("invalid post ID: " ++ intStr id) := by
        unfold service.UpdatePost
        rw [if_pos hle]
      have hinv : goContains ("invalid post ID: " ++ intStr id) "invalid" = true := rfl
      constructor <;>
        simp [handler.handleUpdatePost, hext, hparse, hsvc, goContains_invalid_id id, hinv,
          response.BadRequest, response.errorResponse]
    · have hsvc : service.UpdatePost st id req gf2 rf2 pf2
          = Except.error ("invalid post request: " ++ e) := by
        unfold service.UpdatePost
        rw [if_neg hle, hv]
      constructor <;>
        simp [handler.handleUpdatePost, hext, hparse, hsvc, hgc, hnf,
          response.BadRequest, response.errorResponse]

/-- Claim C7, amended: in the refactored service and handler, a create or
update request whose title or content is empty after trimming is rejected
with a validation error, the dispatcher answers 400, and nothing is
written; the minimal CRUD Lambda variant performs no such validation and
accepts those requests. -/
theorem C7_validation_rejects_empty (st : S3State) (body path : String) (req : PostRequest)
    (lf : Bool) (gf rf : String → Bool) (pf gf2 rf2 pf2 : Bool)
    (hparse : unmarshalPostRequest body = some req)
    (hempty : goTrimSpace req.Title = "" ∨ goTrimSpace req.Content = "") :
    (handler.handleCreatePost st body lf gf rf pf).1.statusCode = 400 ∧
    (handler.handleCreatePost st body lf gf rf pf).2 = st ∧
    (handler.handleUpdatePost st path body gf2 rf2 pf2).1.statusCode = 400 ∧
    (handler.handleUpdatePost st path body gf2 rf2 pf2).2 = st := by
  rcases validate_empty req hempty with hv | hv
  · obtain ⟨h1, h2⟩ := handleCreatePost_reject st body req _ lf gf rf pf hparse hv rfl
    obtain ⟨h3, h4⟩ := handleUpdatePost_reject st path body req _ gf2 rf2 pf2 hparse hv rfl rfl
    exact ⟨h1, h2, h3, h4⟩
  · obtain ⟨h1, h2⟩ := handleCreatePost_reject st body req _ lf gf rf pf hparse hv rfl
    obtain ⟨h3, h4⟩ := handleUpdatePost_reject st path body req _ gf2 rf2 pf2 hparse hv rfl rfl
    exact ⟨h1, h2, h3, h4⟩

theorem C7_validation_rejects_empty_witness :
    (handler.handleCreatePost [] "\x7b\"title\":\" \",\"content\":\"c\"\x7d" false
        (fun _ => false) (fun _ => false) false).1.statusCode = 400 ∧
    (handler.handleCreatePost [] "\x7b\"title\":\" \",\"content\":\"c\"\x7d" false
        (fun _ => false) (fun _ => false) false).2 = [] ∧
    (handler.handleUpdatePost [] "/posts/1" "\x7b\"title\":\" \",\"content\":\"c\"\x7d"
        false false false).1.statusCode = 400 ∧
    (handler.handleUpdatePost [] "/posts/1" "\x7b\"title\":\" \",\"content\":\"c\"\x7d"
        false false false).2 = [] :=
  C7_validation_rejects_empty [] "\x7b\"title\":\" \",\"content\":\"c\"\x7d" "/posts/1"
    ⟨" ", "c"⟩ false (fun _ => false) (fun _ => false) false false false false rfl
    (Or.inl (by decide))
/-- Claim C3: the repository GetPost fails with the notFound kind exactly
when the key has no binding (and no I/O fault preempts the lookup), with a
storage-error kind (the getFailed and readFailed construction sites)
exactly when an I/O fault occurs on the fetch or on reading the body, with
the decode-error kind exactly when the stored bytes are not valid Post
JSON, and otherwise returns the decoded Post. -/
theorem C3_getpost_error_kinds (st : S3State) (id : Int) (gf rf : Bool) :
    (repository.GetPost st id gf rf = Except.error repository.GetErr.notFound
      ↔ gf = false ∧ lookupKey st (repository.postKey id) = none) ∧
    ((repository.GetPost st id gf rf = Except.error repository.GetErr.getFailed ∨
      repository.GetPost st id gf rf = Except.error repository.GetErr.readFailed)
      ↔ (gf = true ∨ (rf = true ∧ ∃ b, lookupKey st (repository.postKey id) = some b))) ∧
    (repository.GetPost st id gf rf = Except.error repository.GetErr.unmarshalFailed
      ↔ gf = false ∧ rf = false ∧
          ∃ b, lookupKey st (repository.postKey id) = some b ∧ unmarshalPost b = none) ∧
    (∀ p, repository.GetPost st id gf rf = Except.ok p
      ↔ gf = false ∧ rf = false ∧
          ∃ b, lookupKey st (repository.postKey id) = some b ∧ unmarshalPost b = some p) := by
  unfold repository.GetPost repository.getPostByKey
  cases gf with
  | true => simp
  | false =>
    rcases hcase : lookupKey st (repository.postKey id) with _ | b
    · simp [hcase]
    · cases rf with
      | true => simp [hcase]
      | false =>
        rcases hum : unmarshalPost b with _ | p
        · simp [hcase, hum]
        · simp [hcase, hum]
lemma keyMatchesId_removeKey (st : S3State) (k : String) (h : KeyMatchesId st) :
    KeyMatchesId (removeKey st k) :=
  fun kv hkv => h kv (List.mem_filter.mp hkv).1

lemma keyMatchesId_applyRepoOp (st : S3State) (op : RepoOp) (h : KeyMatchesId st) :
    KeyMatchesId (applyRepoOp st op) := by
  cases op with
  | create post pf =>
      cases pf with
      | true => exact h
      | false =>
          intro kv hkv
          rcases List.mem_cons.mp hkv with hkv | hkv
          · exact ⟨post.ID, post, by rw [hkv], by rw [hkv]; exact unmarshal_marshal_post post, rfl⟩
          · exact keyMatchesId_removeKey st _ h kv hkv
  | update id post pf =>
      cases pf with
      | true => exact h
      | false =>
          intro kv hkv
          rcases List.mem_cons.mp hkv with hkv | hkv
          · exact ⟨id, {post with ID := id}, by rw [hkv],
              by rw [hkv]; exact unmarshal_marshal_post {post with ID := id}, rfl⟩
          · exact keyMatchesId_removeKey st _ h kv hkv
  | delete id df =>
      cases df with
      | true => exact h
      | false => exact keyMatchesId_removeKey st _ h

lemma keyMatchesId_applyRepoOps (ops : List RepoOp) (st : S3State) (h : KeyMatchesId st) :
    KeyMatchesId (applyRepoOps st ops) := by
  induction ops generalizing st with
  | nil => exact h
  | cons op ops ih => exact ih (applyRepoOp st op) (keyMatchesId_applyRepoOp st op h)

/-- Claim C4: starting from empty storage, every state reachable through
CreatePost, UpdatePost and DeletePost keeps the id inside each stored Post
equal to the id embedded in its key, and UpdatePost is exactly CreatePost
on the post with its id overwritten by the path id. -/
theorem C4_stored_id_matches_key :
    (∀ ops : List RepoOp, KeyMatchesId (applyRepoOps [] ops)) ∧
    (∀ (st : S3State) (id : Int) (post : Post) (pf : Bool),
      repository.UpdatePost st id post pf = repository.CreatePost st {post with ID := id} pf) := by
  constructor
  · intro ops
    exact keyMatchesId_applyRepoOps ops [] (by intro kv hkv; simp at hkv)
  · intro st id post pf
    rfl
lemma getPostByKey_ok_iff (st : S3State) (k : String) (g r : Bool) :
    (match repository.getPostByKey st k g r with
      | Except.ok _ => true
      | Except.error _ => false)
      = (!g && !r && (match lookupKey st k with
          | some b => (unmarshalPost b).isSome
          | none => false)) := by
  unfold repository.getPostByKey
  cases g with
  | true => simp
  | false =>
    rcases h : lookupKey st k with _ | b
    · simp [h]
    · cases r with
      | true => simp [h]
      | false => rcases hum : unmarshalPost b with _ | p <;> simp [h, hum]

lemma listPosts_foldr_length (st : S3State) (gf rf : String → Bool) (keys : List String) :
    (keys.foldr (fun k acc =>
        match repository.getPostByKey st k (gf k) (rf k) with
        | Except.ok p => p :: acc
        | Except.error _ => acc) []).length
      = keys.countP (decodableAt st gf rf) := by
  induction keys with
  | nil => rfl
  | cons k keys ih =>
    have hiff := getPostByKey_ok_iff st k (gf k) (rf k)
    simp only [List.foldr_cons, List.countP_cons]
    rcases hg : repository.getPostByKey st k (gf k) (rf k) with e | p
    · rw [hg] at hiff
      have hd : decodableAt st gf rf k = false := by
        unfold decodableAt
        exact hiff.symm
      simp [hd, ih]
    · rw [hg] at hiff
      have hd : decodableAt st gf rf k = true := by
        unfold decodableAt
        exact hiff.symm
      simp [hd, ih]

/-- Claim C5: when the key listing succeeds, ListPosts returns a sequence
rather than an error, its length is the number of post objects that can be
fetched and decoded at call time (entries failing to fetch or decode are
skipped), and it is the empty sequence when no post objects exist. -/
theorem C5_list_length_skips (st : S3State) (gf rf : String → Bool) :
    ∃ l, repository.ListPosts st false gf rf = Except.ok l ∧
      l.length = (postJsonKeys st).countP (decodableAt st gf rf) ∧
      (postJsonKeys st = [] → l = []) := by
  refine ⟨_, rfl, ?_, ?_⟩
  · exact listPosts_foldr_length st gf rf (postJsonKeys st)
  · intro h
    show (postJsonKeys st).foldr _ [] = []
    rw [h]
    rfl

theorem C5_list_length_skips_witness :
    (∃ l, repository.ListPosts
        [(repository.postKey 2, marshalPost ⟨2, "T", "C", "", ""⟩),
          ("posts/bad.json", "oops"), ("posts/readme", "zz"), ("other/1.json", "q")]
        false (fun _ => false) (fun _ => false) = Except.ok l ∧
      l.length = (postJsonKeys
        [(repository.postKey 2, marshalPost ⟨2, "T", "C", "", ""⟩),
          ("posts/bad.json", "oops"), ("posts/readme", "zz"), ("other/1.json", "q")]).countP
        (decodableAt
          [(repository.postKey 2, marshalPost ⟨2, "T", "C", "", ""⟩),
            ("posts/bad.json", "oops"), ("posts/readme", "zz"), ("other/1.json", "q")]
          (fun _ => false) (fun _ => false)) ∧
      (postJsonKeys
        [(repository.postKey 2, marshalPost ⟨2, "T", "C", "", ""⟩),
          ("posts/bad.json", "oops"), ("posts/readme", "zz"), ("other/1.json", "q")] = [] →
        l = [])) ∧
    (postJsonKeys
      [(repository.postKey 2, marshalPost ⟨2, "T", "C", "", ""⟩),
        ("posts/bad.json", "oops"), ("posts/readme", "zz"), ("other/1.json", "q")]).countP
      (decodableAt
        [(repository.postKey 2, marshalPost ⟨2, "T", "C", "", ""⟩),
          ("posts/bad.json", "oops"), ("posts/readme", "zz"), ("other/1.json", "q")]
        (fun _ => false) (fun _ => false)) = 1 :=
  ⟨C5_list_length_skips _ (fun _ => false) (fun _ => false), by decide⟩
lemma foldl_max_init (l : List Int) (a : Int) : a ≤ l.foldl max a := by
  induction l generalizing a with
  | nil => exact le_refl a
  | cons x l ih => exact le_trans (le_max_left a x) (ih (max a x))

lemma foldl_max_le (l : List Int) (a : Int) : ∀ i ∈ l, i ≤ l.foldl max a := by
  induction l generalizing a with
  | nil => simp
  | cons x l ih =>
    intro i hi
    rcases List.mem_cons.mp hi with hi | hi
    · subst hi
      exact le_trans (le_max_right a i) (foldl_max_init l (max a i))
    · exact ih (max a x) i hi

lemma foldl_max_mem (l : List Int) (a : Int) : l.foldl max a = a ∨ l.foldl max a ∈ l := by
  induction l generalizing a with
  | nil => exact Or.inl rfl
  | cons x l ih =>
    rcases ih (max a x) with h | h
    · rcases max_choice a x with hm | hm
      · left
        rw [List.foldl_cons, h, hm]
      · right
        rw [List.foldl_cons, h, hm]
        exact List.mem_cons_self x l
    · right
      exact List.mem_cons_of_mem x h

lemma foldl_scan_eq_max (posts : List Post) (a : Int) :
    posts.foldl (fun m p => if p.ID > m then p.ID else m) a = (posts.map Post.ID).foldl max a := by
  induction posts generalizing a with
  | nil => rfl
  | cons p posts ih =>
    simp only [List.foldl_cons, List.map_cons]
    rw [show (if p.ID > a then p.ID else a) = max a p.ID from by
      rw [Int.max_def]; split <;> split <;> omega]
    exact ih (max a p.ID)

lemma postJsonKeys_spec (st : S3State) (k : String) (hk : k ∈ postJsonKeys st) :
    k ∈ st.map Prod.fst ∧ (strHasPref k "posts/" && strEndsWith k ".json") = true := by
  unfold postJsonKeys listKeys at hk
  have h2 := List.mem_filter.mp hk
  have h3 := List.mem_filter.mp h2.1
  exact ⟨h3.1, by rw [h3.2, h2.2]; rfl⟩

lemma collect_map_id (st : S3State) (gf rf : String → Bool) (keys : List String)
    (hfault : ∀ k ∈ keys, gf k = false ∧ rf k = false)
    (h : ∀ k ∈ keys, ∃ b p, lookupKey st k = some b ∧ unmarshalPost b = some p) :
    ((keys.foldr (fun k acc =>
        match repository.getPostByKey st k (gf k) (rf k) with
        | Except.ok p => p :: acc
        | Except.error _ => acc) []).map Post.ID)
      = keys.filterMap (fun k => ((lookupKey st k).bind unmarshalPost).map Post.ID) := by
  induction keys with
  | nil => rfl
  | cons k keys ih =>
    obtain ⟨b, p, hb, hp⟩ := h k (List.mem_cons_self _ _)
    obtain ⟨hg, hr⟩ := hfault k (List.mem_cons_self _ _)
    have hget : repository.getPostByKey st k (gf k) (rf k) = Except.ok p := by
      unfold repository.getPostByKey
      simp [hg, hr, hb, hp]
    simp only [List.foldr_cons, List.filterMap_cons, hget, hb, Option.some_bind, hp,
      Option.map_some, List.map_cons]
    rw [ih (fun k2 hk2 => hfault k2 (List.mem_cons_of_mem _ hk2))
      (fun k2 hk2 => h k2 (List.mem_cons_of_mem _ hk2))]
    rfl
/-- Claim C2: with a successful listing, the id generated for a create is
the maximum id of the existing posts plus one (one when none exist), and
the created post is written under that id. -/
theorem C2_create_id_generation (st : S3State) (req : PostRequest)
    (htitle : goTrimSpace req.Title ≠ "")
    (hcontent : goTrimSpace req.Content ≠ "")
    (hdec : ∀ kv ∈ st, (strHasPref kv.1 "posts/" && strEndsWith kv.1 ".json") = true →
        ∃ p, unmarshalPost kv.2 = some p ∧ 1 ≤ p.ID) :
    ∃ post st2,
      service.CreatePost st req false (fun _ => false) (fun _ => false) false
        = Except.ok (post, st2) ∧
      post.ID = (storedIds st).foldl max 0 + 1 ∧
      (∀ i ∈ storedIds st, i < post.ID) ∧
      (storedIds st ≠ [] → post.ID - 1 ∈ storedIds st) ∧
      (storedIds st = [] → post.ID = 1) ∧
      post.Title = req.Title ∧ post.Content = req.Content ∧
      lookupKey st2 (repository.postKey post.ID) = some (marshalPost post) := by
  have hkeys : ∀ k ∈ postJsonKeys st,
      ∃ b p, lookupKey st k = some b ∧ unmarshalPost b = some p := by
    intro k hk
    obtain ⟨hmem, hfilter⟩ := postJsonKeys_spec st k hk
    obtain ⟨b, hb⟩ := mem_keys_lookup st k hmem
    obtain ⟨p, hp, _⟩ := hdec (k, b) (lookupKey_mem st k b hb) hfilter
    exact ⟨b, p, hb, hp⟩
  have hpos : ∀ i ∈ storedIds st, 1 ≤ i := by
    intro i hi
    unfold storedIds at hi
    obtain ⟨k, hk, heq⟩ := List.mem_filterMap.mp hi
    rcases hbv : (lookupKey st k).bind unmarshalPost with _ | p
    · rw [hbv] at heq
      simp at heq
    · rw [hbv] at heq
      simp at heq
      rcases hlk : lookupKey st k with _ | b
      · rw [hlk] at hbv
        simp at hbv
      · rw [hlk] at hbv
        simp at hbv
        obtain ⟨hmem, hfilter⟩ := postJsonKeys_spec st k hk
        obtain ⟨p2, hp2, hpos2⟩ := hdec (k, b) (lookupKey_mem st k b hlk) hfilter
        rw [hbv] at hp2
        rw [← heq, (Option.some_inj.mp hp2)]
        exact hpos2
  have hbt : (goTrimSpace req.Title == "") = false := beq_eq_false_iff_ne.mpr htitle
  have hbc : (goTrimSpace req.Content == "") = false := beq_eq_false_iff_ne.mpr hcontent
  have hval : service.validatePostRequest req = Except.ok () := by
    unfold service.validatePostRequest
    simp [hbt, hbc]
  have hmap := collect_map_id st (fun _ => false) (fun _ => false) (postJsonKeys st)
    (fun _ _ => ⟨rfl, rfl⟩) hkeys
  have hlp : repository.ListPosts st false (fun _ => false) (fun _ => false)
      = Except.ok ((postJsonKeys st).foldr (fun k acc =>
          match repository.getPostByKey st k ((fun _ => false) k) ((fun _ => false) k) with
          | Except.ok p => p :: acc
          | Except.error _ => acc) []) := rfl
  have hgen : service.generateNextID st false (fun _ => false) (fun _ => false)
      = (storedIds st).foldl max 0 + 1 := by
    unfold service.generateNextID
    simp only [hlp]
    rw [foldl_scan_eq_max, hmap]
    rfl
  refine ⟨⟨service.generateNextID st false (fun _ => false) (fun _ => false),
      req.Title, req.Content, "", ""⟩,
    putObject st
      (repository.postKey (service.generateNextID st false (fun _ => false) (fun _ => false)))
      (marshalPost ⟨service.generateNextID st false (fun _ => false) (fun _ => false),
        req.Title, req.Content, "", ""⟩),
    ?_, ?_, ?_, ?_, ?_, rfl, rfl, ?_⟩
  · unfold service.CreatePost
    rw [hval]
    rfl
  · exact hgen
  · intro i hi
    have hle := foldl_max_le (storedIds st) 0 i hi
    show i < service.generateNextID st false (fun _ => false) (fun _ => false)
    rw [hgen]
    omega
  · intro hne
    show service.generateNextID st false (fun _ => false) (fun _ => false) - 1 ∈ storedIds st
    rw [hgen]
    rcases foldl_max_mem (storedIds st) 0 with h0 | hmem
    · obtain ⟨j, hj⟩ := List.exists_mem_of_ne_nil (storedIds st) hne
      have h1 := hpos j hj
      have h2 := foldl_max_le (storedIds st) 0 j hj
      rw [h0] at h2
      omega
    · simpa using hmem
  · intro hnil
    show service.generateNextID st false (fun _ => false) (fun _ => false) = 1
    rw [hgen, hnil]
    rfl
  · rw [show repository.postKey
        (service.generateNextID st false (fun _ => false) (fun _ => false)) = _ from rfl]
    exact lookupKey_putObject st _ _
theorem C2_create_id_generation_witness :
    (∃ post st2,
      service.CreatePost [(repository.postKey 2, marshalPost ⟨2, "T", "C", "", ""⟩)] ⟨"a", "b"⟩
          false (fun _ => false) (fun _ => false) false
        = Except.ok (post, st2) ∧
      post.ID = (storedIds [(repository.postKey 2, marshalPost ⟨2, "T", "C", "", ""⟩)]).foldl
          max 0 + 1 ∧
      (∀ i ∈ storedIds [(repository.postKey 2, marshalPost ⟨2, "T", "C", "", ""⟩)], i < post.ID) ∧
      (storedIds [(repository.postKey 2, marshalPost ⟨2, "T", "C", "", ""⟩)] ≠ [] →
        post.ID - 1 ∈ storedIds [(repository.postKey 2, marshalPost ⟨2, "T", "C", "", ""⟩)]) ∧
      (storedIds [(repository.postKey 2, marshalPost ⟨2, "T", "C", "", ""⟩)] = [] →
        post.ID = 1) ∧
      post.Title = "a" ∧ post.Content = "b" ∧
      lookupKey st2 (repository.postKey post.ID) = some (marshalPost post)) ∧
    (storedIds [(repository.postKey 2, marshalPost ⟨2, "T", "C", "", ""⟩)]).foldl max 0 + 1
      = 3 :=
  ⟨C2_create_id_generation [(repository.postKey 2, marshalPost ⟨2, "T", "C", "", ""⟩)]
      ⟨"a", "b"⟩ (by decide) (by decide)
      (by
        intro kv hkv hf
        have hkv2 : kv = (repository.postKey 2, marshalPost ⟨2, "T", "C", "", ""⟩) := by
          simpa using hkv
        subst hkv2
        exact ⟨⟨2, "T", "C", "", ""⟩, unmarshal_marshal_post ⟨2, "T", "C", "", ""⟩, by decide⟩),
    by decide⟩

end CdkGo
